import Mathlib

/-!
Verification of the cmdline-assist dashboard engine.

Shallow embedding of the algorithmic core of `src/dashboard.py` and
`src/ha_commander.py`: time-expression parsing and duration rounding
(TimeMath), template-rendering error handling (TemplateEvaluator), layout
compilation and entity extraction (LayoutCompiler), and the ASCII graph
renderer (GraphRenderer).  Python floats are modelled as rationals (ℚ);
machine-level floating point is not modelled.  External libraries
(jinja2, dateutil/datetime parsing and formatting) enter as explicit
function parameters.
-/

namespace CmdlineAssist

/-- Python's built-in `round` on a rational: round half to even
(banker's rounding), returning an integer. -/
def roundHalfEven (x : ℚ) : ℤ :=
  if x - ⌊x⌋ < 1/2 then ⌊x⌋
  else if 1/2 < x - ⌊x⌋ then ⌊x⌋ + 1
  else if ⌊x⌋ % 2 = 0 then ⌊x⌋ else ⌊x⌋ + 1

/-- Python's `int()` truncation of a rational toward zero
(`int(pos)` in the resampling loops). -/
def pyTrunc (x : ℚ) : ℤ :=
  if 0 ≤ x then ⌊x⌋ else -⌊-x⌋

theorem pyTrunc_eq_floor {x : ℚ} (h : 0 ≤ x) : pyTrunc x = ⌊x⌋ := by
  simp [pyTrunc, h]

theorem floor_le_roundHalfEven (x : ℚ) : ⌊x⌋ ≤ roundHalfEven x := by
  unfold roundHalfEven
  split
  · exact le_refl _
  · split
    · exact le_of_lt (lt_add_one _)
    · split
      · exact le_refl _
      · exact le_of_lt (lt_add_one _)

theorem roundHalfEven_le_floor_add_one (x : ℚ) :
    roundHalfEven x ≤ ⌊x⌋ + 1 := by
  unfold roundHalfEven
  split
  · exact le_of_lt (lt_add_one _)
  · split
    · exact le_refl _
    · split
      · exact le_of_lt (lt_add_one _)
      · exact le_refl _

theorem roundHalfEven_mono {x y : ℚ} (h : x ≤ y) :
    roundHalfEven x ≤ roundHalfEven y := by
  rcases lt_or_eq_of_le (Int.floor_le_floor h) with hf | hf
  · calc roundHalfEven x ≤ ⌊x⌋ + 1 := roundHalfEven_le_floor_add_one x
      _ ≤ ⌊y⌋ := by omega
      _ ≤ roundHalfEven y := floor_le_roundHalfEven y
  · by_cases h1 : x - ⌊x⌋ < 1/2
    · have hx : roundHalfEven x = ⌊x⌋ := by
        unfold roundHalfEven; rw [if_pos h1]
      rw [hx, hf]; exact floor_le_roundHalfEven y
    · by_cases h2 : 1/2 < x - ⌊x⌋
      · have h2y : 1/2 < y - (⌊y⌋ : ℚ) := by
          rw [← hf]; have := sub_le_sub_right h ((⌊x⌋ : ℚ)); linarith
        have hx : roundHalfEven x = ⌊x⌋ + 1 := by
          unfold roundHalfEven; rw [if_neg h1, if_pos h2]
        have hy : roundHalfEven y = ⌊y⌋ + 1 := by
          unfold roundHalfEven; rw [if_neg (by linarith), if_pos h2y]
        rw [hx, hy, hf]
      · have hx12 : x - (⌊x⌋ : ℚ) = 1/2 :=
          le_antisymm (not_lt.mp h2) (not_lt.mp h1)
        by_cases h2y : 1/2 < y - (⌊y⌋ : ℚ)
        · have hyv : roundHalfEven y = ⌊y⌋ + 1 := by
            unfold roundHalfEven; rw [if_neg (by linarith), if_pos h2y]
          rw [hyv, ← hf]
          exact roundHalfEven_le_floor_add_one x
        · have h1y : ¬ (y - (⌊y⌋ : ℚ) < 1/2) := by
            rw [← hf]; have := sub_le_sub_right h ((⌊x⌋ : ℚ)); linarith
          have hy12 : y - (⌊y⌋ : ℚ) = 1/2 :=
            le_antisymm (not_lt.mp h2y) (not_lt.mp h1y)
          have hxy : x = y := by
            have hfc : ((⌊x⌋ : ℚ)) = ((⌊y⌋ : ℚ)) := by exact_mod_cast hf
            linarith
          rw [hxy]

theorem roundHalfEven_le_of_lt_int {x : ℚ} {m : ℤ} (h : x < (m : ℚ)) :
    roundHalfEven x ≤ m := by
  have hf : ⌊x⌋ < m := Int.floor_lt.mpr h
  calc roundHalfEven x ≤ ⌊x⌋ + 1 := roundHalfEven_le_floor_add_one x
    _ ≤ m := by omega

theorem le_roundHalfEven_of_int_le {m : ℤ} {x : ℚ} (h : (m : ℚ) ≤ x) :
    m ≤ roundHalfEven x :=
  le_trans (Int.le_floor.mpr h) (floor_le_roundHalfEven x)

/- ------------------------------------------------------------------
TimeMath: `nice_delta` and `human_delta` from src/ha_commander.py.
Durations are measured in seconds; `nice_delta` takes the (possibly
fractional) `td.total_seconds()` as a rational and returns the rounded
duration in whole seconds; `human_delta` takes `int(td.total_seconds())`.
------------------------------------------------------------------ -/

/-- `nice_delta` (ha_commander.py): round a duration, given in total
seconds, to whole days if ≥ 24h, else whole hours if ≥ 1h, else whole
minutes if ≥ 1m, else whole seconds.  Returns total seconds of the
resulting `timedelta`. -/
def nice_delta (total_seconds : ℚ) : ℤ :=
  if 86400 ≤ total_seconds then 86400 * roundHalfEven (total_seconds / 86400)
  else if 3600 ≤ total_seconds then 3600 * roundHalfEven (total_seconds / 3600)
  else if 60 ≤ total_seconds then 60 * roundHalfEven (total_seconds / 60)
  else roundHalfEven total_seconds

/-- The `parts` list built by `human_delta` (ha_commander.py):
days/hours/minutes/seconds components via Python `divmod` (floored
division, nonnegative remainder for a positive modulus), with minutes
shown only when there are no days and seconds only when there are no
days and no hours. -/
def human_delta_parts (total : ℤ) : List String :=
  let days := total.ediv 86400
  let rem := total.emod 86400
  let hours := rem.ediv 3600
  let rem2 := rem.emod 3600
  let minutes := rem2.ediv 60
  let seconds := rem2.emod 60
  (if 0 < days then [toString days ++ "d"] else []) ++
  (if 0 < hours then [toString hours ++ "h"] else []) ++
  (if 0 < minutes ∧ days = 0 then [toString minutes ++ "m"] else []) ++
  (if 0 < seconds ∧ days = 0 ∧ hours = 0 then [toString seconds ++ "s"] else [])

/-- `human_delta` (ha_commander.py): join the parts with spaces, or
render `"0s"` when no part is nonzero. -/
def human_delta (total : ℤ) : String :=
  let parts := human_delta_parts total
  if parts = [] then "0s" else String.intercalate " " parts

/-- C9 counterexample: a 90-second duration renders as `"1m 30s"`,
mixing a minutes part and a seconds part — not `"1m"` (minutes alone),
nor a seconds-alone form, the only shapes the claim's enumeration
allows for a duration with no days and no hours. -/
theorem human_delta_mixed_counterexample :
    human_delta 90 = "1m 30s" ∧ "1m 30s" ≠ "1m" ∧ "1m 30s" ≠ "30s" ∧
      "1m 30s" ≠ "90s" := by
  refine ⟨by decide, by decide, by decide, by decide⟩

/-- C9 (amended): `human_delta` renders, in order, days and hours when
nonzero, minutes only when there are no days, and seconds only when
there are no days and no hours — so the possible forms are
days+hours, days, hours+minutes, hours, minutes+seconds, minutes,
seconds, and `"0s"` for a duration with no nonzero displayed unit.
Seconds are never mixed with days or hours, but minutes+seconds is a
legal form (unlike the claim's enumeration). -/
theorem human_delta_forms (total d h m s : ℤ)
    (hd : d = total.ediv 86400)
    (hh : h = (total.emod 86400).ediv 3600)
    (hm : m = ((total.emod 86400).emod 3600).ediv 60)
    (hs : s = ((total.emod 86400).emod 3600).emod 60) :
    (0 < d → 0 < h →
      human_delta_parts total = [toString d ++ "d", toString h ++ "h"]) ∧
    (0 < d → h ≤ 0 → human_delta_parts total = [toString d ++ "d"]) ∧
    (d = 0 → 0 < h → 0 < m →
      human_delta_parts total = [toString h ++ "h", toString m ++ "m"]) ∧
    (d = 0 → 0 < h → m ≤ 0 →
      human_delta_parts total = [toString h ++ "h"]) ∧
    (d = 0 → h = 0 → 0 < m → 0 < s →
      human_delta_parts total = [toString m ++ "m", toString s ++ "s"]) ∧
    (d = 0 → h = 0 → 0 < m → s ≤ 0 →
      human_delta_parts total = [toString m ++ "m"]) ∧
    (d = 0 → h = 0 → m ≤ 0 → 0 < s →
      human_delta_parts total = [toString s ++ "s"]) ∧
    (d = 0 → h = 0 → m ≤ 0 → s ≤ 0 → human_delta total = "0s") := by
  subst hd hh hm hs
  refine ⟨?_, ?_, ?_, ?_, ?_, ?_, ?_, ?_⟩
  · intro h0 h1
    simp only [human_delta_parts]
    rw [if_pos h0, if_pos h1, if_neg (by omega), if_neg (by omega)]
    rfl
  · intro h0 h1
    simp only [human_delta_parts]
    rw [if_pos h0, if_neg (by omega), if_neg (by omega), if_neg (by omega)]
    rfl
  · intro h0 h1 h2
    simp only [human_delta_parts]
    rw [if_neg (by omega), if_pos h1, if_pos (by omega : _ ∧ _),
      if_neg (by omega)]
    rfl
  · intro h0 h1 h2
    simp only [human_delta_parts]
    rw [if_neg (by omega), if_pos h1, if_neg (by omega), if_neg (by omega)]
    rfl
  · intro h0 h1 h2 h3
    simp only [human_delta_parts]
    rw [if_neg (by omega), if_neg (by omega), if_pos (by omega : _ ∧ _),
      if_pos (by omega : _ ∧ _ ∧ _)]
    rfl
  · intro h0 h1 h2 h3
    simp only [human_delta_parts]
    rw [if_neg (by omega), if_neg (by omega), if_pos (by omega : _ ∧ _),
      if_neg (by omega)]
    rfl
  · intro h0 h1 h2 h3
    simp only [human_delta_parts]
    rw [if_neg (by omega), if_neg (by omega), if_neg (by omega),
      if_pos (by omega : _ ∧ _ ∧ _)]
    rfl
  · intro h0 h1 h2 h3
    have hp : human_delta_parts total = [] := by
      simp only [human_delta_parts]
      rw [if_neg (by omega), if_neg (by omega), if_neg (by omega),
        if_neg (by omega)]
      rfl
    simp [human_delta, hp]

/-- Witness for `human_delta_forms`: the minutes+seconds form at
90 seconds. -/
theorem human_delta_forms_witness : human_delta_parts 90 = ["1m", "30s"] := by
  rw [(human_delta_forms 90 0 0 1 30 (by decide) (by decide) (by decide)
      (by decide)).2.2.2.2.1 rfl rfl (by decide) (by decide)]
  decide

theorem nice_delta_of_day {ts : ℚ} (h : 86400 ≤ ts) :
    nice_delta ts = 86400 * roundHalfEven (ts / 86400) := by
  unfold nice_delta; rw [if_pos h]

theorem nice_delta_of_hour {ts : ℚ} (h1 : ¬ 86400 ≤ ts) (h2 : 3600 ≤ ts) :
    nice_delta ts = 3600 * roundHalfEven (ts / 3600) := by
  unfold nice_delta; rw [if_neg h1, if_pos h2]

theorem nice_delta_of_minute {ts : ℚ} (h1 : ¬ 86400 ≤ ts) (h2 : ¬ 3600 ≤ ts)
    (h3 : 60 ≤ ts) : nice_delta ts = 60 * roundHalfEven (ts / 60) := by
  unfold nice_delta; rw [if_neg h1, if_neg h2, if_pos h3]

theorem nice_delta_of_second {ts : ℚ} (h1 : ¬ 86400 ≤ ts) (h2 : ¬ 3600 ≤ ts)
    (h3 : ¬ 60 ≤ ts) : nice_delta ts = roundHalfEven ts := by
  unfold nice_delta; rw [if_neg h1, if_neg h2, if_neg h3]

theorem nice_delta_lb_day {ts : ℚ} (h : 86400 ≤ ts) : 86400 ≤ nice_delta ts := by
  rw [nice_delta_of_day h]
  have hr : 1 ≤ roundHalfEven (ts / 86400) := by
    apply le_roundHalfEven_of_int_le
    rw [Int.cast_one, le_div_iff (by norm_num : (0:ℚ) < 86400)]
    linarith
  exact le_mul_of_one_le_right (by norm_num) hr

theorem nice_delta_lb_hour {ts : ℚ} (h : 3600 ≤ ts) : 3600 ≤ nice_delta ts := by
  by_cases h1 : 86400 ≤ ts
  · linarith [nice_delta_lb_day h1]
  · rw [nice_delta_of_hour h1 h]
    have hr : 1 ≤ roundHalfEven (ts / 3600) := by
      apply le_roundHalfEven_of_int_le
      rw [Int.cast_one, le_div_iff (by norm_num : (0:ℚ) < 3600)]
      linarith
    exact le_mul_of_one_le_right (by norm_num) hr

theorem nice_delta_lb_minute {ts : ℚ} (h : 60 ≤ ts) : 60 ≤ nice_delta ts := by
  by_cases h2 : 3600 ≤ ts
  · linarith [nice_delta_lb_hour h2]
  · have h1 : ¬ 86400 ≤ ts := by intro hc; exact h2 (by linarith)
    rw [nice_delta_of_minute h1 h2 h]
    have hr : 1 ≤ roundHalfEven (ts / 60) := by
      apply le_roundHalfEven_of_int_le
      rw [Int.cast_one, le_div_iff (by norm_num : (0:ℚ) < 60)]
      linarith
    exact le_mul_of_one_le_right (by norm_num) hr

theorem nice_delta_ub_second {ts : ℚ} (h : ts < 60) : nice_delta ts ≤ 60 := by
  have h3 : ¬ 60 ≤ ts := not_le.mpr h
  have h2 : ¬ 3600 ≤ ts := by intro hc; linarith
  have h1 : ¬ 86400 ≤ ts := by intro hc; linarith
  rw [nice_delta_of_second h1 h2 h3]
  exact roundHalfEven_le_of_lt_int (by exact_mod_cast h)

theorem nice_delta_ub_minute {ts : ℚ} (h : ts < 3600) : nice_delta ts ≤ 3600 := by
  by_cases h3 : 60 ≤ ts
  · have h2 : ¬ 3600 ≤ ts := not_le.mpr h
    have h1 : ¬ 86400 ≤ ts := by intro hc; linarith
    rw [nice_delta_of_minute h1 h2 h3]
    have hr : roundHalfEven (ts / 60) ≤ 60 := by
      apply roundHalfEven_le_of_lt_int
      rw [div_lt_iff (by norm_num : (0:ℚ) < 60)]
      push_cast
      linarith
    calc 60 * roundHalfEven (ts / 60) ≤ 60 * 60 :=
          mul_le_mul_of_nonneg_left hr (by norm_num)
      _ ≤ 3600 := by norm_num
  · linarith [nice_delta_ub_second (not_le.mp h3)]

theorem nice_delta_ub_hour {ts : ℚ} (h : ts < 86400) : nice_delta ts ≤ 86400 := by
  by_cases h2 : 3600 ≤ ts
  · have h1 : ¬ 86400 ≤ ts := not_le.mpr h
    rw [nice_delta_of_hour h1 h2]
    have hr : roundHalfEven (ts / 3600) ≤ 24 := by
      apply roundHalfEven_le_of_lt_int
      rw [div_lt_iff (by norm_num : (0:ℚ) < 3600)]
      push_cast
      linarith
    calc 3600 * roundHalfEven (ts / 3600) ≤ 3600 * 24 :=
          mul_le_mul_of_nonneg_left hr (by norm_num)
      _ ≤ 86400 := by norm_num
  · linarith [nice_delta_ub_minute (not_le.mp h2)]

/-- C8: `nice_delta` (the spec's `roundToNiceDuration`) is monotone: for
durations `a < b` (in total seconds), the rounded duration of `a` is at
most that of `b`. -/
theorem nice_delta_mono {a b : ℚ} (hab : a < b) :
    nice_delta a ≤ nice_delta b := by
  have h : a ≤ b := le_of_lt hab
  by_cases hb1 : 86400 ≤ b
  · by_cases ha1 : 86400 ≤ a
    · rw [nice_delta_of_day ha1, nice_delta_of_day hb1]
      have hdiv : a / 86400 ≤ b / 86400 := by gcongr
      exact mul_le_mul_of_nonneg_left (roundHalfEven_mono hdiv) (by norm_num)
    · exact le_trans (nice_delta_ub_hour (not_le.mp ha1)) (nice_delta_lb_day hb1)
  · by_cases hb2 : 3600 ≤ b
    · by_cases ha2 : 3600 ≤ a
      · have ha1 : ¬ 86400 ≤ a := by intro hc; exact hb1 (by linarith)
        rw [nice_delta_of_hour ha1 ha2, nice_delta_of_hour hb1 hb2]
        have hdiv : a / 3600 ≤ b / 3600 := by gcongr
        exact mul_le_mul_of_nonneg_left (roundHalfEven_mono hdiv) (by norm_num)
      · exact le_trans (nice_delta_ub_minute (not_le.mp ha2)) (nice_delta_lb_hour hb2)
    · by_cases hb3 : 60 ≤ b
      · by_cases ha3 : 60 ≤ a
        · have ha2 : ¬ 3600 ≤ a := by intro hc; exact hb2 (by linarith)
          have ha1 : ¬ 86400 ≤ a := by intro hc; exact hb1 (by linarith)
          rw [nice_delta_of_minute ha1 ha2 ha3, nice_delta_of_minute hb1 hb2 hb3]
          have hdiv : a / 60 ≤ b / 60 := by gcongr
          exact mul_le_mul_of_nonneg_left (roundHalfEven_mono hdiv) (by norm_num)
        · exact le_trans (nice_delta_ub_second (not_le.mp ha3)) (nice_delta_lb_minute hb3)
      · have ha3 : ¬ 60 ≤ a := by intro hc; exact hb3 (by linarith)
        have ha2 : ¬ 3600 ≤ a := by intro hc; exact hb2 (by linarith)
        have ha1 : ¬ 86400 ≤ a := by intro hc; exact hb1 (by linarith)
        rw [nice_delta_of_second ha1 ha2 ha3, nice_delta_of_second hb1 hb2 hb3]
        exact roundHalfEven_mono h

/-- Witness for `nice_delta_mono` at the concrete pair (100 s, 7200 s). -/
theorem nice_delta_mono_witness :
    (100 : ℚ) < 7200 ∧ nice_delta 100 ≤ nice_delta 7200 :=
  ⟨by norm_num, nice_delta_mono (by norm_num)⟩

/- ------------------------------------------------------------------
Time-expression parsing: `parse_time_arg` from src/dashboard.py and
src/ha_commander.py.  Timestamps are modelled as integers (seconds since
an arbitrary epoch); `now` is the caller-supplied current time.
------------------------------------------------------------------ -/

/-- Python whitespace test used by `str.strip()` / `int()` (ASCII
whitespace; exotic Unicode whitespace is not modelled). -/
def isPySpace (c : Char) : Bool :=
  c = ' ' || c = '\t' || c = '\n' || c = '\r' || c = '\x0b' || c = '\x0c'

/-- Python `str.strip()`: drop leading and trailing whitespace. -/
def pyStrip (s : String) : String :=
  String.mk (((s.data.dropWhile isPySpace).reverse.dropWhile isPySpace).reverse)

/-- `s.startswith("-")` in Python. -/
def startsWithDash (s : String) : Bool :=
  match s.data with
  | c :: _ => c = '-'
  | [] => false

/-- Value of a nonempty all-digit character sequence, else `none`
(models the digit part of Python `int(...)`). -/
def digitsVal? (cs : List Char) : Option ℕ :=
  if cs ≠ [] ∧ cs.all (·.isDigit) then
    some (cs.foldl (fun a c => a * 10 + (c.toNat - 48)) 0)
  else none

/-- Python `int(s)` on a string: optional surrounding whitespace, an
optional sign, then decimal digits; anything else raises (modelled as
`none`).  Underscore digit separators are not modelled. -/
def pyInt? (s : String) : Option ℤ :=
  match (pyStrip s).data with
  | '-' :: ds => (digitsVal? ds).map (fun n => -(n : ℤ))
  | '+' :: ds => (digitsVal? ds).map (fun n => (n : ℤ))
  | ds => (digitsVal? ds).map (fun n => (n : ℤ))

/-- `parse_time_arg` (dashboard.py).  `arg = none` models a `None` (or
non-string) argument.  A relative expression `-<int><unit>` with unit
`h`/`d`/`m` is subtracted from `now`; every other input — including an
ISO timestamp, which this variant never attempts to parse — yields the
default `now - 24h`. -/
def parse_time_arg_dash (now : ℤ) (arg : Option String) : ℤ :=
  match arg with
  | none => now - 24 * 3600
  | some a0 =>
    if a0 = "" then now - 24 * 3600
    else
      if startsWithDash (pyStrip a0) then
        match pyInt? (String.mk (((pyStrip a0).data.drop 1).dropLast)) with
        | some num =>
          if (pyStrip a0).data.getLastD ' ' = 'h' then now - num * 3600
          else if (pyStrip a0).data.getLastD ' ' = 'd' then now - num * 86400
          else if (pyStrip a0).data.getLastD ' ' = 'm' then now - num * 60
          else now - 24 * 3600
        | none => now - 24 * 3600
      else now - 24 * 3600

/-- `parse_time_arg` (ha_commander.py).  `fromisoformat` is a parameter
modelling `datetime.fromisoformat`: `some t` is a successful parse to
timestamp `t`, `none` a `ValueError`. -/
def parse_time_arg_cmdr (fromisoformat : String → Option ℤ) (now : ℤ)
    (arg : String) : ℤ :=
  if startsWithDash arg then
    match pyInt? (String.mk ((arg.data.drop 1).dropLast)) with
    | some num =>
      if arg.data.getLastD ' ' = 'h' then now - num * 3600
      else if arg.data.getLastD ' ' = 'd' then now - num * 86400
      else if arg.data.getLastD ' ' = 'm' then now - num * 60
      else now - 24 * 3600
    | none => now - 24 * 3600
  else
    match fromisoformat arg with
    | some t => t
    | none => now - 24 * 3600

/-- C5 counterexample: the dashboard variant of the time-expression
resolver does not accept ISO-8601 absolute timestamps — it returns
the default `now - 24h` for them — while the commander variant returns
the parsed timestamp (here `fromisoformat` maps the string to its epoch
value 1704164645). -/
theorem parse_time_arg_iso_counterexample :
    parse_time_arg_dash 0 (some "2024-01-02T03:04:05+00:00") = 0 - 24 * 3600 ∧
    parse_time_arg_cmdr
      (fun s => if s = "2024-01-02T03:04:05+00:00" then some 1704164645 else none)
      0 "2024-01-02T03:04:05+00:00" = 1704164645 ∧
    (0 - 24 * 3600 : ℤ) ≠ 1704164645 := by
  refine ⟨by decide, by decide, by decide⟩

/-- C5 (amended): `"-2h"` resolves to `now - 2h` in both variants;
the commander variant returns the timestamp for any input that
`fromisoformat` accepts, and falls back to `now - 24h` when it raises;
the dashboard variant returns the default `now - 24h` for every input
that does not begin with `-` (ISO timestamps included); `"garbage"`,
`"24h"` and a missing argument all yield `now - 24h`. -/
theorem parse_time_arg_spec (now : ℤ) (iso : String → Option ℤ) :
    parse_time_arg_dash now (some "-2h") = now - 2 * 3600 ∧
    parse_time_arg_cmdr iso now "-2h" = now - 2 * 3600 ∧
    parse_time_arg_dash now (some "garbage") = now - 24 * 3600 ∧
    (iso "garbage" = none →
      parse_time_arg_cmdr iso now "garbage" = now - 24 * 3600) ∧
    (∀ s t, startsWithDash s = false → iso s = some t →
      parse_time_arg_cmdr iso now s = t) ∧
    (∀ s, startsWithDash (pyStrip s) = false →
      parse_time_arg_dash now (some s) = now - 24 * 3600) ∧
    parse_time_arg_dash now (some "24h") = now - 24 * 3600 ∧
    (iso "24h" = none → parse_time_arg_cmdr iso now "24h" = now - 24 * 3600) ∧
    parse_time_arg_dash now none = now - 24 * 3600 := by
  refine ⟨rfl, ?_, rfl, ?_, ?_, ?_, rfl, ?_, rfl⟩
  · unfold parse_time_arg_cmdr
    rw [if_pos (by decide : startsWithDash "-2h" = true)]
    rfl
  · intro h
    unfold parse_time_arg_cmdr
    rw [if_neg (by decide : ¬ startsWithDash "garbage" = true), h]
  · intro s t hns hiso
    unfold parse_time_arg_cmdr
    rw [if_neg (by simp [hns]), hiso]
  · intro s hs
    show (if s = "" then now - 24 * 3600
      else if startsWithDash (pyStrip s) = true then _ else now - 24 * 3600) =
      now - 24 * 3600
    by_cases h0 : s = ""
    · rw [if_pos h0]
    · rw [if_neg h0, if_neg (by simp [hs])]
  · intro h
    unfold parse_time_arg_cmdr
    rw [if_neg (by decide : ¬ startsWithDash "24h" = true), h]

/-- Witness for `parse_time_arg_spec`: commander fallback on `"garbage"`
with a `fromisoformat` that rejects everything. -/
theorem parse_time_arg_spec_witness :
    parse_time_arg_cmdr (fun _ => none) 5 "garbage" = 5 - 24 * 3600 :=
  (parse_time_arg_spec 5 (fun _ => none)).2.2.2.1 rfl

/- ------------------------------------------------------------------
TemplateEvaluator: `ha_jinja_render` from src/dashboard.py.  The jinja2
engine is external; it is modelled as a function from the template
string and the rendering context to `Except String String`, where
`.error e` models an exception with message `e` raised during
`from_string`/`render`.
------------------------------------------------------------------ -/

/-- Python `dict.get`: first binding of the key in an association
list. -/
def dictGet {α : Type} (st : List (String × α)) (k : String) : Option α :=
  match st with
  | [] => none
  | (k2, v) :: rest => if k2 = k then some v else dictGet rest k

/-- One entry of `current_states` (dashboard.py): a state dict with an
optional `state` display value and an attribute map, or Python `None`
for a pending entity (hence the store carries `Option EntityData`).
Attribute values are modelled as strings. -/
structure EntityData where
  state : Option String
  attributes : List (String × String)

/-- The rendering context `ha_jinja_render` passes to
`template.render(...)`: the current entity's `state` and `attributes`
plus the `states`/`state_attr` helper callables. -/
structure JinjaCtx where
  state : Option String
  attributes : List (String × String)
  states : String → String
  state_attr : String → String → Option String

/-- `states_helper` (dashboard.py): display value of an entity, or
`"unknown"` when the entity is absent or pending. -/
def states_helper (store : List (String × Option EntityData)) (eid : String) :
    String :=
  match dictGet store eid with
  | some (some d) => d.state.getD "unknown"
  | _ => "unknown"

/-- `state_attr_helper` (dashboard.py): an entity's attribute, or `none`
when entity or attribute is absent. -/
def state_attr_helper (store : List (String × Option EntityData))
    (eid attr : String) : Option String :=
  match dictGet store eid with
  | some (some d) => dictGet d.attributes attr
  | _ => none

/-- The context built by `ha_jinja_render` for `entity_id`: `state` is
`data.get("state")` when the entity has data, else the string
`"unknown"`; similarly for `attributes`. -/
def mkJinjaCtx (store : List (String × Option EntityData)) (entity_id : String) :
    JinjaCtx where
  state :=
    match dictGet store entity_id with
    | some (some d) => d.state
    | _ => some "unknown"
  attributes :=
    match dictGet store entity_id with
    | some (some d) => d.attributes
    | _ => []
  states := states_helper store
  state_attr := state_attr_helper store

/-- `ha_jinja_render` (dashboard.py): empty template renders as `""`;
otherwise the jinja2 engine is invoked and any exception is caught and
rendered as an inline `"Jinja error: ..."` string. -/
def ha_jinja_render (jinja : String → JinjaCtx → Except String String)
    (store : List (String × Option EntityData))
    (template_str entity_id : String) : String :=
  if template_str = "" then ""
  else
    match jinja template_str (mkJinjaCtx store entity_id) with
    | .ok s => s
    | .error e => "Jinja error: " ++ e

/-- C6: template evaluation always returns a string (the embedding is a
total function): an empty template evaluates to the empty string, a
successful engine run returns its output, and an engine exception is
caught and returned as the inline error string for that widget. -/
theorem ha_jinja_render_spec (jinja : String → JinjaCtx → Except String String)
    (store : List (String × Option EntityData)) (template_str entity_id : String) :
    (template_str = "" → ha_jinja_render jinja store template_str entity_id = "") ∧
    (∀ s, template_str ≠ "" →
      jinja template_str (mkJinjaCtx store entity_id) = .ok s →
      ha_jinja_render jinja store template_str entity_id = s) ∧
    (∀ e, template_str ≠ "" →
      jinja template_str (mkJinjaCtx store entity_id) = .error e →
      ha_jinja_render jinja store template_str entity_id = "Jinja error: " ++ e) := by
  refine ⟨?_, ?_, ?_⟩
  · intro h
    unfold ha_jinja_render
    rw [if_pos h]
  · intro s hne hok
    unfold ha_jinja_render
    rw [if_neg hne, hok]
  · intro e hne herr
    unfold ha_jinja_render
    rw [if_neg hne, herr]

/-- Witness for `ha_jinja_render_spec`: a failing engine on a nonempty
template yields the inline error string. -/
theorem ha_jinja_render_spec_witness :
    ha_jinja_render (fun _ _ => .error "boom") [] "x" "sensor.a" =
      "Jinja error: " ++ "boom" :=
  (ha_jinja_render_spec (fun _ _ => .error "boom") [] "x" "sensor.a").2.2
    "boom" (by decide) rfl

/- ------------------------------------------------------------------
LayoutCompiler: `load_config_file` from src/dashboard.py.  A layout card
is a YAML mapping; its string-valued options are modelled as an
association list (non-string option values contribute nothing to the
entity scan and are not entity references, so they are omitted), and the
nested `cards` key is modelled separately as `children` (`none` = key
absent).
------------------------------------------------------------------ -/

/-- Character class `[a-z0-9_]` of the compiled `entity_pattern` regex. -/
def isIdChar (c : Char) : Bool :=
  c.isLower || c.isDigit || c = '_'

/-- One leftmost match of `[a-z0-9_]+\.[a-z0-9_]+` at the head of `cs`:
greedy run of class characters, a literal dot, a second greedy run.
Backtracking into the first run can never succeed (every character of
the run is a class character, never `.`), so the greedy runs are taken
maximal.  Returns the matched text and the remainder after it. -/
def matchEntity (cs : List Char) : Option (List Char × List Char) :=
  if cs.takeWhile isIdChar = [] then none
  else
    match cs.drop (cs.takeWhile isIdChar).length with
    | '.' :: cs2 =>
      if cs2.takeWhile isIdChar = [] then none
      else some (cs.takeWhile isIdChar ++ '.' :: cs2.takeWhile isIdChar,
                 cs2.drop (cs2.takeWhile isIdChar).length)
    | _ => none

/-- `re.findall` scanning loop: try a match at the current position,
emit it and continue after it, else advance one character.  The fuel
argument is the remaining string length (each step consumes at least
one character, so `cs.length` fuel never runs out). -/
def findallAux : ℕ → List Char → List (List Char)
  | 0, _ => []
  | _, [] => []
  | fuel + 1, c :: rest =>
    match matchEntity (c :: rest) with
    | some (m, after) => m :: findallAux fuel after
    | none => findallAux fuel rest

/-- `entity_pattern.findall(value)` (dashboard.py) over a string. -/
def findall (cs : List Char) : List (List Char) :=
  findallAux cs.length cs

/-- The entity identifiers extracted from one string value: the findall
matches, kept when they contain a dot (the source's redundant
`if "." in match` check — every match contains a dot). -/
def findallStr (v : String) : List String :=
  ((findall v.data).filter (fun m => m.contains '.')).map String.mk

/-- A layout card: string-valued options plus the optional nested
`cards` list. -/
inductive Card where
  | mk : List (String × String) → Option (List Card) → Card

/-- The string-valued fields of a card. -/
def Card.fields : Card → List (String × String)
  | .mk f _ => f

/-- The nested `cards` list of a card (`none` when the key is absent). -/
def Card.children : Card → Option (List Card)
  | .mk _ ch => ch

/-- Python truthiness filter on an optional string: an empty string is
falsy. -/
def truthyStr : Option String → Option String
  | some s => if s = "" then none else some s
  | none => none

/-- `eid = c.get("entity") or c.get("entity_id")` followed by
`if eid:` — the first truthy of the two explicit entity reference
fields. -/
def cardEid (c : Card) : Option String :=
  match truthyStr (dictGet c.fields "entity") with
  | some s => some s
  | none => truthyStr (dictGet c.fields "entity_id")

/-- The explicit entity reference of a card as a (0- or 1-element)
list. -/
def eidList (c : Card) : List String :=
  match cardEid c with
  | some eid => [eid]
  | none => []

mutual
/-- Contribution of one card to the watch set in `walk`
(dashboard.py `load_config_file`): its explicit entity reference, then
the regex matches of every string-valued field, then the contribution
of its nested cards. -/
def cardWatch : Card → List String
  | .mk fields children =>
    eidList (Card.mk fields children) ++
    fields.bind (fun kv => findallStr kv.2) ++
    childrenWatch children
/-- The nested-cards contribution (`if "cards" in c: walk(c["cards"])`). -/
def childrenWatch : Option (List Card) → List String
  | some cs => cardsWatch cs
  | none => []
/-- `walk(cards)`: the watch-set contributions of a card list in
order. -/
def cardsWatch : List Card → List String
  | [] => []
  | c :: cs => cardWatch c ++ cardsWatch cs
end

/-- The dashboard process state touched by `load_config_file`: the
`layout_config` global and the `current_states` global.  The stored
state value type is abstract (`σ`); a `none` entry is a pending entity
(Python `None`). -/
structure DashState (σ : Type) where
  layout_config : List Card
  current_states : List (String × Option σ)

/-- The `for eid in entity_ids: if eid not in current_states:
current_states[eid] = None` loop. -/
def addPending {σ : Type} (ids : List String)
    (st : List (String × Option σ)) : List (String × Option σ) :=
  ids.foldl (fun acc eid =>
    if (dictGet acc eid).isSome then acc else acc ++ [(eid, none)]) st

/-- `load_config_file` (dashboard.py).  `file = none` models an absent
file (`os.path.exists` false): the function returns `[]` immediately and
leaves both globals untouched.  Otherwise the layout list replaces
`layout_config`, the walk collects the entity-id set (modelled as the
deduplicated walk output; Python set iteration order is immaterial to
every property below), pending entries are added, and the id list is
returned. -/
def load_config_file {σ : Type} (file : Option (List Card))
    (st : DashState σ) : List String × DashState σ :=
  match file with
  | none => ([], st)
  | some layout =>
    ((cardsWatch layout).dedup,
     { layout_config := layout
       current_states := addPending (cardsWatch layout).dedup st.current_states })

/-- Occurrence of a card anywhere in a card tree: directly in the list,
or inside some member's nested `cards`, recursively. -/
inductive InTree : Card → List Card → Prop where
  | here {c : Card} {cs : List Card} : c ∈ cs → InTree c cs
  | nested {c : Card} {fields : List (String × String)}
      {inner cs : List Card} :
      Card.mk fields (some inner) ∈ cs → InTree c inner → InTree c cs

theorem cardWatch_mk (fields : List (String × String))
    (children : Option (List Card)) :
    cardWatch (Card.mk fields children) =
      eidList (Card.mk fields children) ++
      fields.bind (fun kv => findallStr kv.2) ++
      childrenWatch children := by
  rw [cardWatch]

theorem childrenWatch_some (cs : List Card) :
    childrenWatch (some cs) = cardsWatch cs := by
  rw [childrenWatch]

theorem cardsWatch_cons (c : Card) (cs : List Card) :
    cardsWatch (c :: cs) = cardWatch c ++ cardsWatch cs := rfl

theorem cardWatch_subset_of_mem {c : Card} {cs : List Card} (h : c ∈ cs) :
    cardWatch c ⊆ cardsWatch cs := by
  induction cs with
  | nil => cases h
  | cons c2 rest ih =>
    rw [cardsWatch_cons]
    rcases List.mem_cons.mp h with rfl | h2
    · exact fun s hs => List.mem_append_left _ hs
    · exact fun s hs => List.mem_append_right _ (ih h2 hs)

theorem cardsWatch_subset_parent {fields : List (String × String)}
    {inner : List Card} :
    cardsWatch inner ⊆ cardWatch (Card.mk fields (some inner)) := by
  intro s hs
  rw [cardWatch_mk, childrenWatch_some]
  exact List.mem_append_right _ hs

theorem cardWatch_subset_of_inTree {c : Card} {cs : List Card}
    (h : InTree c cs) : cardWatch c ⊆ cardsWatch cs := by
  induction h with
  | here hmem => exact cardWatch_subset_of_mem hmem
  | nested hmem _ ih =>
    intro s hs
    exact cardWatch_subset_of_mem hmem (cardsWatch_subset_parent (ih hs))

theorem eid_mem_cardWatch {c : Card} {eid : String}
    (h : cardEid c = some eid) : eid ∈ cardWatch c := by
  obtain ⟨fields, children⟩ := c
  rw [cardWatch_mk]
  apply List.mem_append_left
  apply List.mem_append_left
  rw [eidList, h]
  exact List.mem_singleton.mpr rfl

theorem scan_mem_cardWatch {c : Card} {k v s : String}
    (hkv : (k, v) ∈ c.fields) (hs : s ∈ findallStr v) : s ∈ cardWatch c := by
  obtain ⟨fields, children⟩ := c
  rw [cardWatch_mk]
  refine List.mem_append_left _ (List.mem_append_right _ ?_)
  exact List.mem_bind.mpr ⟨(k, v), hkv, hs⟩

/-- The claim's example card: `secondary_info` holds a template string
that mentions `sensor.x` inside a `states(...)` call and `sensor.y` as
bare text. -/
def exampleCard : Card :=
  Card.mk
    [("type", "entity"), ("entity", "sensor.temp"),
     ("secondary_info",
      "\x7b\x7b states(\x27sensor.x\x27) \x7d\x7d and sensor.y")]
    none

/-- C4: compilation puts into the watch set every card's explicit
entity reference and every `[a-z0-9_]+\.[a-z0-9_]+` match of every
string-valued field, recursing through nested `cards`; the returned
entity-id list of `load_config_file` contains exactly the walk's
finds; and the example card with
`secondary_info = "{{ states('sensor.x') }} and sensor.y"` yields a
watch set containing both `sensor.x` and `sensor.y`. -/
theorem load_config_watchset_spec :
    (∀ (cards : List Card) (c : Card), InTree c cards →
      (∀ eid, cardEid c = some eid → eid ∈ cardsWatch cards) ∧
      (∀ k v s, (k, v) ∈ c.fields → s ∈ findallStr v →
        s ∈ cardsWatch cards)) ∧
    (∀ (σ : Type) (cards : List Card) (st : DashState σ) (s : String),
      s ∈ (load_config_file (some cards) st).1 ↔ s ∈ cardsWatch cards) ∧
    ("sensor.x" ∈ (load_config_file (σ := Unit) (some [exampleCard]) ⟨[], []⟩).1 ∧
     "sensor.y" ∈ (load_config_file (σ := Unit) (some [exampleCard]) ⟨[], []⟩).1) := by
  refine ⟨?_, ?_, ?_, ?_⟩
  · intro cards c hin
    refine ⟨?_, ?_⟩
    · intro eid heid
      exact cardWatch_subset_of_inTree hin (eid_mem_cardWatch heid)
    · intro k v s hkv hs
      exact cardWatch_subset_of_inTree hin (scan_mem_cardWatch hkv hs)
  · intro σ cards st s
    show s ∈ (cardsWatch cards).dedup ↔ s ∈ cardsWatch cards
    exact List.mem_dedup
  · decide
  · decide

/-- Witness for `load_config_watchset_spec`: the example card's explicit
entity reference `sensor.temp` lands in the walk's watch set. -/
theorem load_config_watchset_spec_witness :
    "sensor.temp" ∈ cardsWatch [exampleCard] :=
  (load_config_watchset_spec.1 [exampleCard] exampleCard
      (InTree.here (List.mem_singleton.mpr rfl))).1
    "sensor.temp" (by decide)

/-- C7 counterexample: with a previously loaded one-card layout, loading
an absent file returns an empty WatchSet but leaves the previous
(non-empty) layout tree in place — the compiled tree is not empty. -/
theorem load_config_missing_counterexample :
    (load_config_file (σ := Unit) none
        ⟨[Card.mk [("entity", "sensor.a")] none], []⟩).1 = [] ∧
    (load_config_file (σ := Unit) none
        ⟨[Card.mk [("entity", "sensor.a")] none], []⟩).2.layout_config.length = 1 ∧
    (1 : ℕ) ≠ 0 :=
  ⟨rfl, rfl, by decide⟩

/-- C7 (amended): an absent layout file yields an empty WatchSet and
leaves the process state — the previously loaded layout tree and the
state store — entirely unchanged (so the tree is empty only when
nothing was loaded before); no error is raised. -/
theorem load_config_file_missing {σ : Type} (st : DashState σ) :
    load_config_file none st = ([], st) := rfl

theorem dictGet_append {α : Type} (st l : List (String × α)) (k : String) :
    dictGet (st ++ l) k =
      match dictGet st k with
      | some v => some v
      | none => dictGet l k := by
  induction st with
  | nil => rfl
  | cons p rest ih =>
    by_cases hk : p.1 = k
    · simp [dictGet, hk]
    · simp [dictGet, hk, ih]

theorem addPending_preserves {σ : Type} (ids : List String)
    (st : List (String × Option σ)) (k : String) (v : Option σ)
    (h : dictGet st k = some v) : dictGet (addPending ids st) k = some v := by
  induction ids generalizing st with
  | nil => exact h
  | cons i rest ih =>
    show dictGet (addPending rest
      (if (dictGet st i).isSome then st else st ++ [(i, none)])) k = some v
    apply ih
    by_cases hi : (dictGet st i).isSome
    · rw [if_pos hi]; exact h
    · rw [if_neg hi, dictGet_append, h]

theorem addPending_adds {σ : Type} (ids : List String)
    (st : List (String × Option σ)) (k : String)
    (hmem : k ∈ ids) (habs : dictGet st k = none) :
    dictGet (addPending ids st) k = some none := by
  induction ids generalizing st with
  | nil => cases hmem
  | cons i rest ih =>
    show dictGet (addPending rest
      (if (dictGet st i).isSome then st else st ++ [(i, none)])) k = some none
    by_cases hki : k = i
    · subst hki
      have hns : ¬ (dictGet st k).isSome = true := by rw [habs]; simp
      rw [if_neg hns]
      apply addPending_preserves
      rw [dictGet_append, habs]
      simp [dictGet]
    · have hmem2 : k ∈ rest := by
        rcases List.mem_cons.mp hmem with h1 | h2
        · exact absurd h1 hki
        · exact h2
      refine ih _ hmem2 ?_
      have hik : i ≠ k := fun hc => hki hc.symm
      by_cases hi : (dictGet st i).isSome
      · rw [if_pos hi]; exact habs
      · rw [if_neg hi, dictGet_append, habs]
        simp [dictGet, hik]

/-- C10: loading a layout file never removes or modifies an existing
store entry — any identifier mapped before the load is mapped to the
identical value afterwards — and every newly watched identifier not yet
in the store is added mapped to the null pending value. -/
theorem load_config_file_store_spec {σ : Type} (file : Option (List Card))
    (st : DashState σ) (k : String) :
    (∀ v, dictGet st.current_states k = some v →
      dictGet ((load_config_file file st).2).current_states k = some v) ∧
    ((dictGet st.current_states k = none → k ∈ (load_config_file file st).1 →
      dictGet ((load_config_file file st).2).current_states k = some none)) := by
  cases file with
  | none => exact ⟨fun v h => h, fun _ hmem => absurd hmem (by simp [load_config_file])⟩
  | some layout =>
    constructor
    · intro v h
      exact addPending_preserves _ _ _ _ h
    · intro habs hmem
      exact addPending_adds _ _ _ hmem habs

/-- Witness for `load_config_file_store_spec`: loading a one-card layout
over a store already holding `sensor.b` keeps `sensor.b` intact, and
the newly watched `sensor.a` appears as pending. -/
theorem load_config_file_store_spec_witness :
    dictGet ((load_config_file (σ := Unit)
        (some [Card.mk [("entity", "sensor.a")] none])
        ⟨[], [("sensor.b", some ())]⟩).2).current_states "sensor.b" =
      some (some ()) ∧
    dictGet ((load_config_file (σ := Unit)
        (some [Card.mk [("entity", "sensor.a")] none])
        ⟨[], [("sensor.b", some ())]⟩).2).current_states "sensor.a" =
      some none :=
  ⟨(load_config_file_store_spec _ _ "sensor.b").1 (some ()) rfl,
   (load_config_file_store_spec _ _ "sensor.a").2 rfl (by decide)⟩

/- ------------------------------------------------------------------
GraphRenderer: `ascii_graph` from src/dashboard.py (values-extraction
with skip-on-error, single-point duplication, labels `┐`/`┘`/`│`, raw
ratio fill test) and from src/ha_commander.py (coercion failures become
0.0, `int()` fill test against precomputed scaled heights, time-marker
rows).  A history point carries the numeric coercion of its selected
field (`float(h["state"])` or the requested attribute): `none` models a
ValueError/TypeError, `some v` a successful coercion to `v`; plus its
`last_updated` string.
------------------------------------------------------------------ -/

/-- One history point after field selection and `float(...)` coercion. -/
structure HistPoint where
  value : Option ℚ
  last_updated : String

/-- Python `min` over a nonempty list (0 for the empty list, which the
renderers never pass). -/
def minList : List ℚ → ℚ
  | [] => 0
  | x :: xs => xs.foldl min x

/-- Python `max` over a nonempty list. -/
def maxList : List ℚ → ℚ
  | [] => 0
  | x :: xs => xs.foldl max x

/-- The resampling loop shared verbatim by both `ascii_graph` variants:
for each output column `i < width`,
`pos = i * (n - 1) / (width - 1)`, `left = int(pos)`,
`right = min(left + 1, n - 1)`, `frac = pos - left`, and the column
value is `values[left] * (1 - frac) + values[right] * frac`
(out-of-range indexing, which cannot occur for nonempty input, defaults
to 0). -/
def resample (values : List ℚ) (width : ℕ) : List ℚ :=
  (List.range width).map (fun (i : ℕ) =>
    let pos : ℚ := (i : ℚ) * ((values.length : ℚ) - 1) / ((width : ℚ) - 1)
    let left := (pyTrunc pos).toNat
    let right := min (left + 1) (values.length - 1)
    let frac := pos - (left : ℚ)
    values.getD left 0 * (1 - frac) + values.getD right 0 * frac)

/-- Right-justification to a field width (the `>` in Python format
specs): pad with spaces on the left, never truncate. -/
def padLeft (w : ℕ) (s : String) : String :=
  if s.length < w then String.mk (List.replicate (w - s.length) ' ') ++ s
  else s

/-- Python fixed-point formatting `f"{x:.prec f}"` for `prec ≥ 1`:
round half to even at the last kept digit, zero-pad the fraction. -/
def fmtFixed (prec : ℕ) (x : ℚ) : String :=
  let k := roundHalfEven (x * ((10 : ℚ) ^ prec))
  let ds0 := (toString k.natAbs).data
  let ds := if ds0.length < prec + 1 then
      List.replicate (prec + 1 - ds0.length) '0' ++ ds0
    else ds0
  (if k < 0 then "-" else "") ++
    String.mk (ds.take (ds.length - prec) ++ '.' :: ds.drop (ds.length - prec))

/-- dashboard.py value extraction: points whose coercion fails are
skipped (`except (ValueError, TypeError): continue`). -/
def dashValues (hist : List HistPoint) : List ℚ :=
  (hist.filter (fun h => h.value.isSome)).map (fun h => h.value.getD 0)

/-- dashboard.py single-point duplication:
`if len(values) == 1: values = [values[0], values[0]]`. -/
def dashSamples (values : List ℚ) : List ℚ :=
  if values.length = 1 then [values.getD 0 0, values.getD 0 0] else values

/-- One dashboard body row (without its label):
`"█" if ((v - mn) / span * (height - 1)) >= y else " "` per resampled
column value — the raw ratio is compared, with no rounding. -/
def dashRow (scaled : List ℚ) (mn span : ℚ) (height y : ℕ) : List Char :=
  scaled.map (fun v =>
    if (y : ℚ) ≤ (v - mn) / span * ((height : ℚ) - 1) then '█' else ' ')

/-- The dashboard row label: `f"{mx:>6.1f} ┐"` on the top row,
`f"{mn:>6.1f} ┘"` on the bottom row, seven spaces and `│` between. -/
def dashLabel (mn mx : ℚ) (height y : ℕ) : String :=
  if y = height - 1 then padLeft 6 (fmtFixed 1 mx) ++ " ┐"
  else if y = 0 then padLeft 6 (fmtFixed 1 mn) ++ " ┘"
  else "       │"

/-- The dashboard graph body: rows from top (`y = height - 1`) to
bottom (`y = 0`); `mn`/`mx` are taken over the (duplicated) ORIGINAL
values, not the resampled ones; `span = mx - mn or 1`. -/
def dashRows (hist : List HistPoint) (width height : ℕ) : List String :=
  ((List.range height).reverse).map (fun y =>
    dashLabel (minList (dashSamples (dashValues hist)))
        (maxList (dashSamples (dashValues hist))) height y ++
      String.mk (dashRow (resample (dashSamples (dashValues hist)) width)
        (minList (dashSamples (dashValues hist)))
        (if maxList (dashSamples (dashValues hist)) -
              minList (dashSamples (dashValues hist)) = 0 then 1
         else maxList (dashSamples (dashValues hist)) -
              minList (dashSamples (dashValues hist)))
        height y))

/-- `ascii_graph` (dashboard.py): `"(no data)"` for an empty history,
`"(no numeric data)"` when no point coerces, else the labelled rows
joined with newlines. -/
def ascii_graph_dash (hist : List HistPoint) (width height : ℕ) : String :=
  if hist.isEmpty then "(no data)"
  else if (dashValues hist).isEmpty then "(no numeric data)"
  else String.intercalate "\n" (dashRows hist width height)

/-- ha_commander.py value extraction: a point whose coercion fails
contributes `0.0` (`except ...: values.append(0.0)`), so the list is
never shorter than the history. -/
def cmdrValues (hist : List HistPoint) : List ℚ :=
  hist.map (fun h => h.value.getD 0)

/-- ha_commander.py time extraction: `h.get("last_updated", "")`. -/
def cmdrTimes (hist : List HistPoint) : List String :=
  hist.map (fun h => h.last_updated)

/-- `scaled_times` (ha_commander.py): the left-sample timestamp for each
output column. -/
def scaledTimes (times : List String) (n width : ℕ) : List String :=
  (List.range width).map (fun (i : ℕ) =>
    times.getD (pyTrunc ((i : ℚ) * ((n : ℚ) - 1) / ((width : ℚ) - 1))).toNat "")

/-- `scaled_height` (ha_commander.py):
`int((v - mn) / span * (height - 1))` per resampled value (`int()`
truncates toward zero). -/
def cmdrScaledHeight (scaled : List ℚ) (mn span : ℚ) (height : ℕ) : List ℤ :=
  scaled.map (fun v => pyTrunc ((v - mn) / span * ((height : ℚ) - 1)))

/-- One commander body row (without its label): `"█" if v >= y` over
the precomputed integer scaled heights. -/
def cmdrRow (scaled_height : List ℤ) (y : ℕ) : List Char :=
  scaled_height.map (fun v => if (y : ℤ) ≤ v then '█' else ' ')

/-- Python `list(range(0, width, step))` for `step ≥ 1`. -/
def rangeStep (width step : ℕ) : List ℕ :=
  (List.range ((width + step - 1) / step)).map (· * step)

/-- `ascii_graph` (ha_commander.py).  `isoparse` and `strftime` are
parameters modelling `dateutil.parser.isoparse` and
`datetime.strftime("%Y-%m-%d %H:%M")`; `isoparse` is assumed total on
the timestamps present (a string it would raise on is outside this
model — in the claims below it is never applied). -/
def ascii_graph_cmdr (isoparse : String → ℤ) (strftime : ℤ → String)
    (hist : List HistPoint) (width height num_markers : ℕ) : String :=
  if hist.isEmpty then "(no data)"
  else
    let values := cmdrValues hist
    let times := cmdrTimes hist
    if values.length = 0 then "(no numeric data)"
    else
      let scaled := resample values width
      let stimes := scaledTimes times values.length width
      let mn := minList scaled
      let mx := maxList scaled
      let span := if mx - mn = 0 then 1 else mx - mn
      let sh := cmdrScaledHeight scaled mn span height
      let label_width := max (fmtFixed 2 mx).length (fmtFixed 2 mn).length + 2
      let rows := ((List.range height).reverse).map (fun (y : ℕ) =>
        padLeft label_width (fmtFixed 2 (mn + span * (y : ℚ) / ((height : ℚ) - 1))) ++
          " │" ++ String.mk (cmdrRow sh y))
      let step := max 1 (width / (num_markers - 1))
      let marker_positions := (rangeStep width step).take num_markers
      let markers := (List.range width).map
        (fun (i : ℕ) => if i ∈ marker_positions then '#' else ' ')
      let marker_row :=
        String.mk (List.replicate (label_width + 2) ' ') ++ String.mk markers
      let marker_times := (marker_positions.filter (· < stimes.length)).map
        (fun p => stimes.getD p "")
      let dt_values := ((marker_times.filter (· ≠ "")).map isoparse)
      let delta : ℤ :=
        if 1 < dt_values.length then
          nice_delta ((dt_values.getD 1 0 - dt_values.getD 0 0 : ℤ) : ℚ)
        else 0
      let begin_time := if dt_values.isEmpty then "" else strftime (dt_values.getD 0 0)
      let end_time := if dt_values.isEmpty then "" else strftime (dt_values.getLastD 0)
      let bottom := String.mk (List.replicate label_width ' ') ++ " └" ++
        String.mk (List.replicate width '─')
      String.intercalate "\n" (rows ++ [bottom, marker_row] ++
        ["begin time: " ++ begin_time, "end time:   " ++ end_time,
         "# delta:     " ++ human_delta delta])

theorem resample_getD (values : List ℚ) (width i : ℕ) (hi : i < width) :
    (resample values width).getD i 0 =
      (let pos : ℚ := i * ((values.length : ℚ) - 1) / ((width : ℚ) - 1)
       let left := (pyTrunc pos).toNat
       let right := min (left + 1) (values.length - 1)
       let frac := pos - (left : ℚ)
       values.getD left 0 * (1 - frac) + values.getD right 0 * frac) := by
  unfold resample
  rw [List.getD_eq_getElem?_getD, List.getElem?_map, List.getElem?_range hi]
  rfl

theorem resample_pos_nonneg (values : List ℚ) (width i : ℕ)
    (hn : values ≠ []) (hw : 2 ≤ width) :
    0 ≤ (i : ℚ) * ((values.length : ℚ) - 1) / ((width : ℚ) - 1) := by
  apply div_nonneg
  · apply mul_nonneg (by positivity)
    have h1 : 1 ≤ values.length := List.length_pos.mpr hn
    have : (1 : ℚ) ≤ (values.length : ℚ) := by exact_mod_cast h1
    linarith
  · have : (2 : ℚ) ≤ (width : ℚ) := by exact_mod_cast hw
    linarith

/-- C1: for a nonempty value series and width ≥ 2, the resampled value
at column `i` is the linear interpolation
`values[left] * (1 - frac) + values[right] * frac` with
`pos = i * (n - 1) / (width - 1)`, `left = ⌊pos⌋`,
`right = min (left + 1) (n - 1)`, `frac = pos - left`; in particular
column 0 equals `values[0]` and column `width - 1` equals
`values[n - 1]`. -/
theorem resample_spec (values : List ℚ) (width : ℕ)
    (hn : values ≠ []) (hw : 2 ≤ width) :
    (∀ (i : ℕ) (pos frac : ℚ) (left right : ℕ), i < width →
      pos = (i : ℚ) * ((values.length : ℚ) - 1) / ((width : ℚ) - 1) →
      left = (⌊pos⌋).toNat →
      right = min (left + 1) (values.length - 1) →
      frac = pos - (left : ℚ) →
      (resample values width).getD i 0 =
        values.getD left 0 * (1 - frac) + values.getD right 0 * frac) ∧
    (resample values width).getD 0 0 = values.getD 0 0 ∧
    (resample values width).getD (width - 1) 0 =
      values.getD (values.length - 1) 0 := by
  have hw1 : (0 : ℚ) < (width : ℚ) - 1 := by
    have : (2 : ℚ) ≤ (width : ℚ) := by exact_mod_cast hw
    linarith
  have hlen1 : 1 ≤ values.length := List.length_pos.mpr hn
  refine ⟨?_, ?_, ?_⟩
  · intro i pos frac left right hi hpos hleft hright hfrac
    subst hpos hleft hright hfrac
    rw [resample_getD values width i hi]
    simp only [pyTrunc_eq_floor (resample_pos_nonneg values width i hn hw)]
  · rw [resample_getD values width 0 (by omega)]
    simp [pyTrunc]
  · rw [resample_getD values width (width - 1) (by omega)]
    have hcast : (((width - 1 : ℕ)) : ℚ) = (width : ℚ) - 1 := by
      rw [Nat.cast_sub (by omega : 1 ≤ width), Nat.cast_one]
    have hpos : ((width - 1 : ℕ) : ℚ) * ((values.length : ℚ) - 1) /
        ((width : ℚ) - 1) = (values.length : ℚ) - 1 := by
      rw [hcast, mul_comm, mul_div_assoc, div_self (ne_of_gt hw1), mul_one]
    have hfloor : ⌊(values.length : ℚ) - 1⌋ = (values.length : ℤ) - 1 := by
      rw [show ((values.length : ℚ) - 1) = (((values.length : ℤ) - 1 : ℤ) : ℚ)
          by push_cast; ring]
      exact Int.floor_intCast _
    have hnn2 : (0 : ℚ) ≤ (values.length : ℚ) - 1 := by
      have : (1 : ℚ) ≤ (values.length : ℚ) := by exact_mod_cast hlen1
      linarith
    have htonat : ((values.length : ℤ) - 1).toNat = values.length - 1 := by omega
    have hmin : min (values.length - 1 + 1) (values.length - 1) =
        values.length - 1 := by omega
    have hfrac0 : (values.length : ℚ) - 1 - ((values.length - 1 : ℕ) : ℚ) = 0 := by
      rw [Nat.cast_sub hlen1, Nat.cast_one]
      ring
    simp only [hpos, pyTrunc_eq_floor hnn2, hfloor, htonat, hmin, hfrac0]
    ring

/-- Witness for `resample_spec`: resampling `[1, 2]` to width 3 fixes
the endpoints and interpolates the middle column to `3/2`. -/
theorem resample_spec_witness :
    (resample [(1 : ℚ), 2] 3).getD 0 0 = ([(1 : ℚ), 2]).getD 0 0 ∧
    (resample [(1 : ℚ), 2] 3).getD 2 0 = ([(1 : ℚ), 2]).getD 1 0 ∧
    (resample [(1 : ℚ), 2] 3).getD 1 0 = 3 / 2 := by
  refine ⟨(resample_spec [1, 2] 3 (by simp) (by omega)).2.1, ?_, ?_⟩
  · have h := (resample_spec [1, 2] 3 (by simp) (by omega)).2.2
    simpa using h
  · have h := (resample_spec [1, 2] 3 (by simp) (by omega)).1 1
      (1 * (((2 : ℕ) : ℚ) - 1) / (((3 : ℕ) : ℚ) - 1)) (1/2) 0 1
      (by omega) (by norm_num) (by norm_num [pyTrunc]) (by norm_num)
      (by norm_num [pyTrunc])
    rw [h]
    norm_num

/-- Modelled from the claim (C2), not from the source: a cell at row
`y`, column `i` is filled iff `round((v - mn) / span * (height - 1)) ≥ y`
with `mn`, `mx` the min/max of the RESAMPLED values and
`span = mx - mn` (1 when zero).  Used only to exhibit the divergence
from the code, which never rounds (dashboard compares the raw ratio,
commander truncates with `int()`), and whose dashboard variant takes
`mn`, `mx` over the original values. -/
def claimFilled (values : List ℚ) (width height y i : ℕ) : Prop :=
  (y : ℤ) ≤ roundHalfEven
    (((resample values width).getD i 0 - minList (resample values width)) /
      (if maxList (resample values width) - minList (resample values width) = 0
       then 1
       else maxList (resample values width) - minList (resample values width)) *
      ((height : ℚ) - 1))

/-- C2 counterexample.  Two dashboard renders, each at row `y = 1`
(the top row, list index 0; character index 9 = 8 label characters
plus column 1):
(a) values `[0, 0.7, 1]`, width 3, height 2: the claim's rounding rule
predicts a filled cell (`round(0.7) = 1 ≥ 1`) but the code leaves it
blank (`0.7 ≥ 1` is false);
(b) values `[0, 10, 4]`, width 2, height 2: with `mn`, `mx` over the
resampled values `[0, 4]` the claim predicts a filled cell
(`(4-0)/4*1 = 1 ≥ 1`), but the code scales by the original values'
span 10 and leaves it blank (`0.4 ≥ 1` is false). -/
theorem ascii_graph_fill_counterexample :
    claimFilled [0, 7/10, 1] 3 2 1 1 ∧
    ((dashRows [⟨some 0, ""⟩, ⟨some (7/10), ""⟩, ⟨some 1, ""⟩] 3 2).getD 0
      "").data.getD 9 ' ' = ' ' ∧
    claimFilled [0, 10, 4] 2 2 1 1 ∧
    ((dashRows [⟨some 0, ""⟩, ⟨some 10, ""⟩, ⟨some 4, ""⟩] 2 2).getD 0
      "").data.getD 9 ' ' = ' ' := by
  refine ⟨?_, by with_unfolding_all decide, ?_, by with_unfolding_all decide⟩
  · unfold claimFilled
    with_unfolding_all decide
  · unfold claimFilled
    with_unfolding_all decide

/-- C2 (amended): the dashboard body row for `y` is the label plus one
cell per resampled column, where `mn`/`mx`/`span` come from the
(duplicated) ORIGINAL values; a dashboard cell is filled iff the raw
ratio `(v - mn) / span * (height - 1)` is at least `y`, with no
rounding; a commander cell is filled iff its precomputed integer
scaled height is at least `y`, and that height is
`⌊(v - mn) / span * (height - 1)⌋` (int-truncation equals floor here
because the ratio is nonnegative), with `mn`/`mx` taken over the
RESAMPLED values. -/
theorem ascii_graph_fill_spec :
    (∀ (hist : List HistPoint) (width height y : ℕ), y < height →
      (dashRows hist width height).getD (height - 1 - y) "" =
        dashLabel (minList (dashSamples (dashValues hist)))
            (maxList (dashSamples (dashValues hist))) height y ++
          String.mk (dashRow (resample (dashSamples (dashValues hist)) width)
            (minList (dashSamples (dashValues hist)))
            (if maxList (dashSamples (dashValues hist)) -
                  minList (dashSamples (dashValues hist)) = 0 then 1
             else maxList (dashSamples (dashValues hist)) -
                  minList (dashSamples (dashValues hist)))
            height y)) ∧
    (∀ (scaled : List ℚ) (mn span : ℚ) (height y i : ℕ), i < scaled.length →
      ((dashRow scaled mn span height y).getD i ' ' = '█' ↔
        (y : ℚ) ≤ (scaled.getD i 0 - mn) / span * ((height : ℚ) - 1))) ∧
    (∀ (sh : List ℤ) (y i : ℕ), i < sh.length →
      ((cmdrRow sh y).getD i ' ' = '█' ↔ (y : ℤ) ≤ sh.getD i 0)) ∧
    (∀ (scaled : List ℚ) (mn span : ℚ) (height i : ℕ), i < scaled.length →
      mn ≤ scaled.getD i 0 → 0 < span → 1 ≤ height →
      (cmdrScaledHeight scaled mn span height).getD i 0 =
        ⌊(scaled.getD i 0 - mn) / span * ((height : ℚ) - 1)⌋) := by
  refine ⟨?_, ?_, ?_, ?_⟩
  · intro hist width height y hy
    unfold dashRows
    rw [List.getD_eq_getElem?_getD, List.getElem?_map]
    have hidx : height - 1 - y < ((List.range height).reverse).length := by
      simp [List.length_range]
      omega
    have hidx2 : height - 1 - y < (List.range height).length := by
      simp [List.length_range]
      omega
    have hval : ((List.range height).reverse)[height - 1 - y]? = some y := by
      rw [List.getElem?_reverse hidx2]
      rw [List.getElem?_range (by simp [List.length_range]; omega)]
      congr 1
      simp [List.length_range]
      omega
    rw [hval]
    rfl
  · intro scaled mn span height y i hi
    have hgd : scaled.getD i 0 = scaled[i] := List.getD_eq_getElem scaled 0 hi
    unfold dashRow
    rw [List.getD_eq_getElem?_getD, List.getElem?_map,
      List.getElem?_eq_getElem hi]
    simp only [Option.map_some', Option.getD_some]
    rw [hgd]
    split
    · rename_i hc
      exact iff_of_true rfl hc
    · rename_i hc
      exact iff_of_false (by decide) hc
  · intro sh y i hi
    have hgd : sh.getD i 0 = sh[i] := List.getD_eq_getElem sh 0 hi
    unfold cmdrRow
    rw [List.getD_eq_getElem?_getD, List.getElem?_map,
      List.getElem?_eq_getElem hi]
    simp only [Option.map_some', Option.getD_some]
    rw [hgd]
    split
    · rename_i hc
      exact iff_of_true rfl hc
    · rename_i hc
      exact iff_of_false (by decide) hc
  · intro scaled mn span height i hi hmn hspan hh
    have hgd : scaled.getD i 0 = scaled[i] := List.getD_eq_getElem scaled 0 hi
    unfold cmdrScaledHeight
    rw [List.getD_eq_getElem?_getD, List.getElem?_map,
      List.getElem?_eq_getElem hi]
    simp only [Option.map_some', Option.getD_some]
    rw [hgd]
    apply pyTrunc_eq_floor
    apply mul_nonneg
    · refine div_nonneg ?_ (le_of_lt hspan)
      rw [← hgd]
      linarith
    · have : (1 : ℚ) ≤ (height : ℚ) := by exact_mod_cast hh
      linarith

/-- Witness for `ascii_graph_fill_spec`: a cell at the full-scale value
is filled. -/
theorem ascii_graph_fill_spec_witness :
    (dashRow [(0 : ℚ), 1] 0 1 2 1).getD 1 ' ' = '█' :=
  (ascii_graph_fill_spec.2.1 [(0 : ℚ), 1] 0 1 2 1 1 (by simp)).mpr
    (by norm_num)

/-- C3 counterexample: a non-empty history whose single point has no
numeric coercion.  The ha_commander variant does NOT return
`"(no numeric data)"` — the failed coercion is replaced by `0.0` and a
graph of zeros is rendered — while the dashboard variant does. -/
theorem ascii_graph_no_numeric_counterexample :
    ascii_graph_cmdr (fun _ => 0) (fun _ => "") [⟨none, ""⟩] 3 2 5 ≠
      "(no numeric data)" ∧
    ascii_graph_dash [⟨none, ""⟩] 3 2 = "(no numeric data)" := by
  refine ⟨by with_unfolding_all decide, by with_unfolding_all decide⟩

/-- C3 (amended): both variants return `"(no data)"` for an empty
history.  The dashboard variant returns `"(no numeric data)"` when no
point coerces to a number, and duplicates a single numeric sample
before interpolation.  The commander variant coerces every failed
point to `0.0`, so its value list is never empty for non-empty history
and its `"(no numeric data)"` branch is unreachable; a single point is
handled by the interpolation's right-index clamp instead of
duplication. -/
theorem ascii_graph_empty_and_single_spec :
    (∀ w h, ascii_graph_dash [] w h = "(no data)") ∧
    (∀ iso fmt w h m, ascii_graph_cmdr iso fmt [] w h m = "(no data)") ∧
    (∀ hist w h, hist ≠ [] → dashValues hist = [] →
      ascii_graph_dash hist w h = "(no numeric data)") ∧
    (∀ hist : List HistPoint, hist ≠ [] → cmdrValues hist ≠ []) ∧
    (∀ v : ℚ, dashSamples [v] = [v, v]) ∧
    (∀ values : List ℚ, values.length ≠ 1 → dashSamples values = values) := by
  refine ⟨fun w h => rfl, fun iso fmt w h m => rfl, ?_, ?_, ?_, ?_⟩
  · intro hist w h hne hv
    unfold ascii_graph_dash
    rw [if_neg (by simp [hne]), if_pos (by simp [hv])]
  · intro hist hne hc
    unfold cmdrValues at hc
    exact hne (List.map_eq_nil.mp hc)
  · intro v
    rfl
  · intro values hlen
    unfold dashSamples
    rw [if_neg hlen]

/-- Witness for `ascii_graph_empty_and_single_spec`: the dashboard
placeholder on a history whose only point is non-numeric. -/
theorem ascii_graph_empty_and_single_spec_witness :
    ascii_graph_dash [⟨none, "t"⟩] 5 3 = "(no numeric data)" :=
  ascii_graph_empty_and_single_spec.2.2.1 [⟨none, "t"⟩] 5 3
    (List.cons_ne_nil _ _) rfl

end CmdlineAssist
